import Mathlib

/-!
Verification of the Islamic_Eval_2025 pipeline.

This file gives a shallow embedding of the core algorithms of the repository:

* `src/src/verse_merger.py` — grouping and merging of consecutive Quranic
  verse records (`merge_ayas_from_retrieval`, `create_merged_entry`);
* `1b/search module/quran_search.py` — the coverage/proximity ranking of the
  Quran lexical search engine (`_rank_and_format_results`,
  `_calculate_proximity_score`);
* `src/src/verifier.py` — the verification orchestrator
  (`get_text_key`, `verify_text_match`, `process_matches`,
  `process_single_query`, `run`).

Modelling conventions:

* A Python dict row is modelled by the structure `Rec`.  Fields that the
  data model guarantees on verse records (`verse_id`, `similarity_score`,
  `surah_name`, `ayah_text`) are plain fields; fields that may be absent
  from a row (`hadithTxt`, `surah_num`, `ayah_num`, `merged_count`,
  `original_verses`, `detection`) are `Option`s, with `none` meaning the
  key is absent from the dict.  `dict.get(k)` is the `Option` value itself
  and `dict.get(k, d)` is `Option.getD`; Python `None == x` comparisons are
  `Option` equality (`none == none` is `True` in Python and here).
* Python floats are modelled by `ℚ`.
* The external language model is an oracle `String → String → String`
  (its textual reply), or, once the reply has been parsed, an oracle
  `String → String → Bool`; the orchestrator treats it as a pure function.
* Fallible code (`get_text_key` raising `ValueError`, a candidate row
  missing its text key raising `KeyError`) returns `Except String`.
  The driver loop `run`, which catches any exception for a query, logs it
  and continues, is `runAll`, which drops errored queries.
* `process_matches` additionally returns the number of LLM verifier calls
  that were made, so that claims about call counts can be stated.
-/

unseal List.merge List.mergeSort

namespace IslamicEval

/-- One candidate record (one Python dict of the `top_20_match_details`
list, of the verse-merger input/output, or of a stored `matches` list). -/
structure Rec where
  verse_id : String := ""
  similarity_score : ℚ := 0
  surah_name : String := ""
  ayah_text : String := ""
  hadithTxt : Option String := none
  surah_num : Option Int := none
  ayah_num : Option Int := none
  merged_count : Option Nat := none
  original_verses : Option (List String) := none
  detection : Option Bool := none
deriving DecidableEq

/-- Builds a plain verse record as loaded from the retrieval file: only the
four guaranteed `VerseRecord` fields are set. -/
def mkVerse (vid : String) (score : ℚ) (name text : String) : Rec :=
  { verse_id := vid, similarity_score := score, surah_name := name, ayah_text := text }

/-! ### String helpers

Python's `str.split`, `int()`, `str.strip` and `str.lower` are modelled
structurally on the character list of the string. -/

/-- Python `s.split(c)` for a single-character separator: `"" → [""]`,
`":" → ["", ""]`, and so on. -/
def splitChar (c : Char) : List Char → List (List Char)
  | [] => [[]]
  | x :: xs =>
      if x = c then [] :: splitChar c xs
      else
        match splitChar c xs with
        | h :: t => (x :: h) :: t
        | [] => [[x]]

/-- The numeric value of a decimal digit character. -/
def digitVal (c : Char) : Option Nat :=
  if c.isDigit then some (c.toNat - '0'.toNat) else none

/-- Parses a non-empty all-digit string as a natural number. -/
def parseNat (l : List Char) : Option Nat :=
  match l with
  | [] => none
  | _ =>
      l.foldl (fun acc c =>
        match acc, digitVal c with
        | some n, some d => some (n * 10 + d)
        | _, _ => none) (some 0)

/-- Python `int(s)` on the plain numerals the pipeline feeds it: an
optional leading minus followed by decimal digits; anything else raises
`ValueError`, modelled as `none`. -/
def parseInt (l : List Char) : Option Int :=
  match l with
  | '-' :: rest => (parseNat rest).map (fun n => -(n : Int))
  | _ => (parseNat l).map (fun n => (n : Int))

/-- Python `s.strip()`: surrounding whitespace removed. -/
def pyStrip (s : String) : String :=
  String.mk (((s.data.dropWhile Char.isWhitespace).reverse.dropWhile
    Char.isWhitespace).reverse)

/-- Python `s.lower()`. -/
def pyLower (s : String) : String :=
  String.mk (s.data.map Char.toLower)

/-! ### Verse merger (`src/src/verse_merger.py`) -/

/-- `surah_num, ayah_num = map(int, verse_id.split(':'))`, with the
`ValueError`/`IndexError` of the source's `try` block as `none`. -/
def parse_verse_id (verse_id : String) : Option (Int × Int) :=
  match (splitChar ':' verse_id.data).map parseInt with
  | [some surah_num, some ayah_num] => some (surah_num, ayah_num)
  | _ => none

/-- The body of the parsing loop: on success the copied record is annotated
with `surah_num` and `ayah_num`, on failure the record is kept as is. -/
def parseVerse (verse : Rec) : Rec :=
  match parse_verse_id verse.verse_id with
  | some (surah_num, ayah_num) =>
      { verse with surah_num := some surah_num, ayah_num := some ayah_num }
  | none => verse

/-- The sort key `(x.get('surah_num', 0), x.get('ayah_num', 0))`. -/
def sortKey (x : Rec) : Int × Int := (x.surah_num.getD 0, x.ayah_num.getD 0)

/-- Python tuple comparison (lexicographic `≤`) on the sort keys. -/
def keyLE (p q : Int × Int) : Bool :=
  decide (p.1 < q.1 ∨ (p.1 = q.1 ∧ p.2 ≤ q.2))

/-- The comparator of `parsed_verses.sort(key=...)`. -/
def sortLE (x y : Rec) : Bool := keyLE (sortKey x) (sortKey y)

/-- The source's test for appending `cur` to the group ending in `last`:
`cur.get('surah_num') == last.get('surah_num') and
 cur.get('ayah_num') == last.get('ayah_num', 0) + 1`.
The left comparison is between possibly-absent values (`None == None` is
`True`), the right compares a possibly-absent value with an `int`. -/
def canMerge (last cur : Rec) : Bool :=
  cur.surah_num == last.surah_num && cur.ayah_num == some (last.ayah_num.getD 0 + 1)

/-- The grouping loop.  `lastRec` is the last record of the current group
and `prevRev` holds the earlier members of the current group in reverse
(the Python loop appends at the end of `current_group` and inspects
`current_group[-1]`; the accumulator is reversed on emission). -/
def groupGo (lastRec : Rec) (prevRev : List Rec) : List Rec → List (List Rec)
  | [] => [(lastRec :: prevRev).reverse]
  | v :: rest =>
      if canMerge lastRec v then
        groupGo v (lastRec :: prevRev) rest
      else
        (lastRec :: prevRev).reverse :: groupGo v [] rest

/-- Groups a (sorted) record list into maximal runs of consecutive verses. -/
def groupConsecutive : List Rec → List (List Rec)
  | [] => []
  | v :: rest => groupGo v [] rest

/-- Python `max` over a list of floats (the group is never empty). -/
def pyMax : List ℚ → ℚ
  | [] => 0
  | x :: xs => xs.foldl max x

/-- The f-string `f"{surah}:{first_ayah}-{last_ayah}"`. -/
def mkRangeId (surah first_ayah last_ayah : Int) : String :=
  toString surah ++ ":" ++ toString first_ayah ++ "-" ++ toString last_ayah

/-- `create_merged_entry` of `src/src/verse_merger.py`: a single verse is
returned as is with the temporary `surah_num`/`ayah_num` keys popped; a
multi-verse group is merged into a fresh dict. -/
def create_merged_entry (group : List Rec) : Rec :=
  match group with
  | [] => {}
  | [verse] => { verse with surah_num := none, ayah_num := none }
  | first :: next :: rest =>
      let lastVerse := (next :: rest).getLast (List.cons_ne_nil next rest)
      let merged_verse_id :=
        if first.ayah_num.getD 0 == lastVerse.ayah_num.getD 0 then
          first.verse_id
        else
          mkRangeId (first.surah_num.getD 0) (first.ayah_num.getD 0)
            (lastVerse.ayah_num.getD 0)
      { verse_id := merged_verse_id,
        similarity_score := pyMax ((first :: next :: rest).map Rec.similarity_score),
        surah_name := first.surah_name,
        ayah_text := String.intercalate " " ((first :: next :: rest).map Rec.ayah_text),
        merged_count := some (first :: next :: rest).length,
        original_verses := some ((first :: next :: rest).map Rec.verse_id) }

/-- `merge_ayas_from_retrieval` of `src/src/verse_merger.py`: parse, sort
by `(surah_num, ayah_num)` (stable, as Python's `list.sort`), group
consecutive same-surah runs, and materialise each group. -/
def merge_ayas_from_retrieval (verses_data : List Rec) : List Rec :=
  match verses_data with
  | [] => []
  | _ :: _ =>
      let parsed_verses := verses_data.map parseVerse
      let sorted_verses := parsed_verses.mergeSort sortLE
      (groupConsecutive sorted_verses).map create_merged_entry

/-! ### Quran search ranking (`1b/search module/quran_search.py`) -/

/-- One element of a `verse_word_matches` entry: the tuple
`(sequence, word_index, position_in_verse)` added for each occurrence. -/
structure WordMatch where
  sequence : String := ""
  word_index : Nat := 0
  position : Int := 0
deriving DecidableEq

/-- `_calculate_proximity_score`: `0` for at most one position, otherwise
the mean adjacent gap of the sorted positions. -/
def calculate_proximity_score (positions : List Int) : ℚ :=
  if positions.length ≤ 1 then 0
  else
    let sorted_positions := positions.mergeSort (fun a b => decide (a ≤ b))
    let total_distance : Int :=
      (List.zipWith (fun b a => b - a) sorted_positions.tail sorted_positions).sum
    (total_distance : ℚ) / ((positions.length : ℚ) - 1)

/-- One formatted search result row. -/
structure SearchResult where
  score : ℚ := 0
  surah_number : Nat := 0
  verse_number : Nat := 0
  verse_text : String := ""
  surah_name_ar : String := ""
  surah_name_en : String := ""
  coverage_score : ℚ := 0
  proximity_score : ℚ := 0
  matched_words_count : Nat := 0
  total_query_words : Nat := 0
deriving DecidableEq

/-- `_rank_and_format_results`.  `verse_matches` models the
`verse_word_matches` dict in its iteration (insertion) order; `getText` is
`_get_authentic_verse_text` (returning `""` when the verse is missing, in
which case the row is skipped); `getNameAr`/`getNameEn` are the surah-name
lookups.  Rows are scored, sorted by score descending (Python's stable
`sorted(..., reverse=True)`) and truncated to `max_results`. -/
def rank_and_format_results (getText : Nat → Nat → String)
    (getNameAr getNameEn : Nat → String)
    (verse_matches : List ((Nat × Nat) × List WordMatch))
    (query_words : List String) (max_results : Nat) : List SearchResult :=
  match verse_matches with
  | [] => []
  | _ :: _ =>
      let results := verse_matches.filterMap (fun vm =>
        let sura_number := vm.1.1
        let verse_number := vm.1.2
        let word_matches := vm.2
        let word_positions := word_matches.map WordMatch.position
        let proximity_score := calculate_proximity_score word_positions
        let unique_word_indices := (word_matches.map WordMatch.word_index).dedup
        let coverage_score : ℚ :=
          (unique_word_indices.length : ℚ) / (query_words.length : ℚ)
        let final_score := coverage_score * 1000 - proximity_score
        let verse_text := getText sura_number verse_number
        if verse_text = "" then none
        else some
          { score := final_score,
            surah_number := sura_number,
            verse_number := verse_number,
            verse_text := verse_text,
            surah_name_ar := getNameAr sura_number,
            surah_name_en := getNameEn sura_number,
            coverage_score := coverage_score,
            proximity_score := proximity_score,
            matched_words_count := word_matches.length,
            total_query_words := query_words.length })
      (results.mergeSort (fun a b => decide (b.score ≤ a.score))).take max_results

/-! ### Verification orchestrator (`src/src/verifier.py`) -/

/-- The two possible values of `text_key`. -/
inductive TextKey where
  | ayah_text
  | hadithTxt
deriving DecidableEq

/-- `match[text_key]` / `ent.get(text_key)`: reading a record field by key
name.  `ayah_text` is a guaranteed field of verse records; `hadithTxt` may
be absent. -/
def Rec.getText (r : Rec) : TextKey → Option String
  | TextKey.ayah_text => some r.ayah_text
  | TextKey.hadithTxt => r.hadithTxt

/-- One `VerificationResult` dict as produced by `process_single_query`
and stored in the checkpoint file. -/
structure Res where
  id : String := ""
  query : String := ""
  sequence_id : String := ""
  span_type : String := ""
  «matches» : List Rec := []
deriving DecidableEq

/-- `get_text_key` of `src/src/verifier.py`; an unknown `span_type` raises
`ValueError`. -/
def get_text_key (span_type : String) : Except String TextKey :=
  if span_type = "WrongAyah" ∨ span_type = "CorrectAyah" then
    Except.ok TextKey.ayah_text
  else if span_type = "WrongHadith" ∨ span_type = "CorrectHadith" then
    Except.ok TextKey.hadithTxt
  else
    Except.error ("Unknown span_type: " ++ span_type)

/-- `response.content.strip().lower() == "true"`: the adapter from the raw
LLM reply to a boolean verdict. -/
def parse_llm_reply (content : String) : Bool :=
  pyLower (pyStrip content) == "true"

/-- `verify_text_match`: prompt the model (here, the oracle `llm` giving
the reply text) and parse its reply. -/
def verify_text_match (llm : String → String → String)
    (query_text candidate_text : String) : Bool :=
  parse_llm_reply (llm query_text candidate_text)

/-- `process_matches` of `src/src/verifier.py`.  `stored` is
`existing_results[composite_key]` when the key is present.  Returns the
processed match list together with the number of fresh verifier calls, or
`none` for the `KeyError` of `match[text_key]` on a row missing the key.

For each candidate: if the stored result has an entry with the same text
and a `detection` key, that entry is reused and iteration continues;
otherwise the verifier is called, the annotated copy is appended, and the
loop breaks as soon as a fresh verdict is `True`. -/
def process_matches (verify : String → String → Bool) (query_text : String)
    (stored : Option Res) (text_key : TextKey) :
    List Rec → Option (List Rec × Nat)
  | [] => some ([], 0)
  | m :: rest =>
      match m.getText text_key with
      | none => none
      | some candidate_text =>
          let found_in_existing :=
            match stored with
            | some prior => prior.«matches».filter (fun ent =>
                ent.getText text_key == some candidate_text && ent.detection.isSome)
            | none => []
          match found_in_existing with
          | ent :: _ =>
              (process_matches verify query_text stored text_key rest).map
                (fun p : List Rec × Nat => (ent :: p.1, p.2))
          | [] =>
              let detection := verify query_text candidate_text
              let m2 := { m with detection := some detection }
              if detection then some ([m2], 1)
              else
                (process_matches verify query_text stored text_key rest).map
                  (fun p : List Rec × Nat => (m2 :: p.1, p.2 + 1))

/-- One input `QueryItem` dict. -/
structure QueryItem where
  sequence_id : String := ""
  question_id : String := ""
  query_text : String := ""
  span_type : String := ""
  top_20_match_details : List Rec := []
deriving DecidableEq

/-- The candidate list actually iterated: merged for `span_type == "Ayah"`
(note: exactly the literal `"Ayah"`), passed through otherwise. -/
def effective_match_list (item : QueryItem) : List Rec :=
  if item.span_type = "Ayah" then
    merge_ayas_from_retrieval item.top_20_match_details
  else
    item.top_20_match_details

/-- The non-cached tail of `process_single_query`: select the text key,
process the matches, assemble the result dict. -/
def process_fresh (existing : String → Option Res) (verify : String → String → Bool)
    (item : QueryItem) (match_list : List Rec) : Except String (Res × Nat) :=
  match get_text_key item.span_type with
  | Except.error e => Except.error e
  | Except.ok text_key =>
      match process_matches verify item.query_text (existing item.sequence_id)
          text_key match_list with
      | none => Except.error "KeyError: candidate row has no text field"
      | some (processed_matches, n) =>
          Except.ok
            ({ id := item.question_id,
               query := item.query_text,
               sequence_id := item.sequence_id,
               span_type := item.span_type,
               «matches» := processed_matches }, n)

/-- `process_single_query` of `src/src/verifier.py`: merge when the span
type is `"Ayah"`, then return the stored result verbatim (and make no
verifier call) when the composite key is already in the checkpoint store
and the merge did not change the candidate count; otherwise verify. -/
def process_single_query (existing : String → Option Res)
    (verify : String → String → Bool) (item : QueryItem) :
    Except String (Res × Nat) :=
  let match_list := effective_match_list item
  match existing item.sequence_id with
  | some stored =>
      if item.top_20_match_details.length = match_list.length then
        Except.ok (stored, 0)
      else
        process_fresh existing verify item match_list
  | none => process_fresh existing verify item match_list

/-- The driver loop of `run`: each query is processed inside a
`try`/`except` that logs the error and continues, so the output collects
the results of exactly the queries that did not raise. -/
def runAll (existing : String → Option Res) (verify : String → String → Bool)
    (items : List QueryItem) : List Res :=
  items.filterMap (fun item =>
    ((process_single_query existing verify item).map Prod.fst).toOption)

end IslamicEval

namespace IslamicEval

/-! ### Helper lemmas -/

/-- Python `max` over a non-empty list: the fold is a member of the list
and bounds every member. -/
lemma pyMax_spec (x : ℚ) (xs : List ℚ) :
    (xs.foldl max x = x ∨ xs.foldl max x ∈ xs)
      ∧ x ≤ xs.foldl max x ∧ ∀ y ∈ xs, y ≤ xs.foldl max x := by
  induction xs generalizing x with
  | nil => exact ⟨Or.inl rfl, le_refl x, by simp⟩
  | cons a t ih =>
    obtain ⟨hmem, hle, hall⟩ := ih (max x a)
    refine ⟨?_, ?_, ?_⟩
    · rcases hmem with h | h
      · rcases max_choice x a with hx | ha
        · exact Or.inl (by rw [List.foldl_cons, h, hx])
        · exact Or.inr (by rw [List.foldl_cons, h, ha]; exact List.mem_cons_self a t)
      · exact Or.inr (List.mem_cons_of_mem a h)
    · exact le_trans (le_max_left x a) hle
    · intro y hy
      rcases List.mem_cons.mp hy with rfl | hyt
      · exact le_trans (le_max_right x y) hle
      · exact hall y hyt

/-- `process_matches` with no stored prior result annotates every
candidate with a `false` verdict and calls the verifier once per
candidate, when the verifier rejects every candidate text. -/
lemma process_matches_all_false (verify : String → String → Bool) (q : String)
    (tk : TextKey) (ms : List Rec)
    (h : ∀ m ∈ ms, ∃ t, m.getText tk = some t ∧ verify q t = false) :
    process_matches verify q none tk ms
      = some (ms.map (fun m => { m with detection := some false }), ms.length) := by
  induction ms with
  | nil => rfl
  | cons m rest ih =>
    obtain ⟨t, hget, hfalse⟩ := h m (List.mem_cons_self m rest)
    simp only [process_matches]
    rw [hget]
    simp only [hfalse]
    rw [ih (fun m' hm' => h m' (List.mem_cons_of_mem m hm'))]
    simp [List.length_map]

/-- `process_matches` with no stored prior result stops right after the
first candidate whose fresh verdict is `true`: the suffix `post` is never
examined. -/
lemma process_matches_stop (verify : String → String → Bool) (q : String)
    (tk : TextKey) (pre : List Rec) (mt : Rec) (post : List Rec)
    (hpre : ∀ m ∈ pre, ∃ t, m.getText tk = some t ∧ verify q t = false)
    (hmt : ∃ t, mt.getText tk = some t ∧ verify q t = true) :
    process_matches verify q none tk (pre ++ mt :: post)
      = some (pre.map (fun m => { m with detection := some false })
          ++ [{ mt with detection := some true }], pre.length + 1) := by
  induction pre with
  | nil =>
    obtain ⟨t, hget, htrue⟩ := hmt
    simp only [List.nil_append, process_matches]
    rw [hget]
    simp [htrue]
  | cons m rest ih =>
    obtain ⟨t, hget, hfalse⟩ := hpre m (List.mem_cons_self m rest)
    simp only [List.cons_append, process_matches]
    rw [hget]
    simp only [hfalse, Bool.false_eq_true, if_false, List.append_eq]
    rw [ih (fun m' hm' => hpre m' (List.mem_cons_of_mem m hm'))]
    simp [Nat.add_comm]

/-! ### Claims -/

/-- Claim C1, corrected.  Early stop holds for fresh verifier verdicts
only: with no stored prior result for the key, a first `true` verdict at
position `i` yields exactly the `i + 1`-entry prefix, with only the final
entry detected, the suffix never being examined, and one verifier call per
emitted entry; and when every candidate is rejected the whole list is
returned with all-`false` verdicts.  (A `true` verdict *reused from the
checkpoint* does not break the loop; see the counterexample.) -/
theorem claim_C1 :
    (∀ (verify : String → String → Bool) (q : String) (tk : TextKey)
        (pre post : List Rec) (mt : Rec),
      (∀ m ∈ pre, ∃ t, m.getText tk = some t ∧ verify q t = false) →
      (∃ t, mt.getText tk = some t ∧ verify q t = true) →
      process_matches verify q none tk (pre ++ mt :: post)
        = some (pre.map (fun m => { m with detection := some false })
            ++ [{ mt with detection := some true }], pre.length + 1))
    ∧ (∀ (verify : String → String → Bool) (q : String) (tk : TextKey)
        (ms : List Rec),
      (∀ m ∈ ms, ∃ t, m.getText tk = some t ∧ verify q t = false) →
      process_matches verify q none tk ms
        = some (ms.map (fun m => { m with detection := some false }), ms.length)) :=
  ⟨fun verify q tk pre post mt hpre hmt =>
      process_matches_stop verify q tk pre mt post hpre hmt,
    fun verify q tk ms h => process_matches_all_false verify q tk ms h⟩

/-- Claim C1, witness: a concrete run with candidates `a`, `b`, `c` where
only `b` matches returns the two-entry prefix and makes two calls. -/
theorem claim_C1_witness :
    process_matches (fun _ t => t == "b") "q" none TextKey.ayah_text
        ([{ ayah_text := "a" }] ++ { ayah_text := "b" } :: [{ ayah_text := "c" }])
      = some ([{ ayah_text := "a", detection := some false },
               { ayah_text := "b", detection := some true }], 2) :=
  claim_C1.1 (fun _ t => t == "b") "q" TextKey.ayah_text
    [{ ayah_text := "a" }] [{ ayah_text := "c" }] { ayah_text := "b" }
    (by
      intro m hm
      rw [List.mem_singleton] at hm
      subst hm
      exact ⟨"a", rfl, rfl⟩)
    ⟨"b", rfl, rfl⟩

/-- Claim C1, counterexample to the claim as stated: when the stored
checkpoint entry for the first candidate carries `detection = true`, that
entry is reused and appended, yet iteration continues — the second
candidate is still evaluated (one fresh call) and appended, so the match
list has two entries with the `true` one first, not length `0 + 1`. -/
theorem claim_C1_counterexample :
    (process_matches (fun _ _ => false) "q"
        (some { «matches» := [{ ayah_text := "a", detection := some true }] })
        TextKey.ayah_text
        [{ ayah_text := "a" }, { ayah_text := "b" }]).map
      (fun p : List Rec × Nat => (p.1.map Rec.detection, p.2))
      = some ([some true, some false], 1) := by decide

/-- Claim C2: when the sequence id is in the checkpoint store and merging
left the candidate count unchanged, `process_single_query` returns the
stored result verbatim with zero verifier calls. -/
theorem claim_C2 (existing : String → Option Res) (verify : String → String → Bool)
    (item : QueryItem) (stored : Res)
    (hex : existing item.sequence_id = some stored)
    (hlen : item.top_20_match_details.length = (effective_match_list item).length) :
    process_single_query existing verify item = Except.ok (stored, 0) := by
  unfold process_single_query
  rw [hex]
  simp [hlen]

/-- Claim C2, witness: a concrete cached query is returned verbatim with
zero calls. -/
theorem claim_C2_witness :
    process_single_query
        (fun k => if k = "s1" then
          some { id := "7", query := "t", sequence_id := "s1",
                 span_type := "CorrectHadith", «matches» := [] }
          else none)
        (fun _ _ => true)
        { sequence_id := "s1", question_id := "7", query_text := "t",
          span_type := "CorrectHadith", top_20_match_details := [] }
      = Except.ok ({ id := "7", query := "t", sequence_id := "s1",
                     span_type := "CorrectHadith", «matches» := [] }, 0) :=
  claim_C2 _ _ _ _ (by decide) (by decide)

/-- Claim C4: for any group of two or more verses, the merged entry's
score is the maximum of the members' scores and its text is the members'
texts joined by single spaces in group (for consecutive groups: ascending
ayah) order; and the concrete two-verse scenario from the specification. -/
theorem claim_C4 :
    (∀ (g : List Rec), 2 ≤ g.length →
      ((create_merged_entry g).similarity_score ∈ g.map Rec.similarity_score
        ∧ ∀ s ∈ g.map Rec.similarity_score, s ≤ (create_merged_entry g).similarity_score)
      ∧ (create_merged_entry g).ayah_text
          = String.intercalate " " (g.map Rec.ayah_text))
    ∧ merge_ayas_from_retrieval
        [mkVerse "2:155" (9/10) "B" "ta", mkVerse "2:156" (7/10) "B" "tb"]
      = [{ verse_id := "2:155-156", similarity_score := 9/10, surah_name := "B",
           ayah_text := "ta tb", merged_count := some 2,
           original_verses := some ["2:155", "2:156"] }] := by
  constructor
  · intro g hg
    match g with
    | first :: next :: rest =>
      have hscore : (create_merged_entry (first :: next :: rest)).similarity_score
          = ((next :: rest).map Rec.similarity_score).foldl max first.similarity_score := rfl
      obtain ⟨hmem, hle, hall⟩ :=
        pyMax_spec first.similarity_score ((next :: rest).map Rec.similarity_score)
      refine ⟨⟨?_, ?_⟩, rfl⟩
      · rw [hscore, List.map_cons]
        rcases hmem with h | h
        · rw [h]; exact List.mem_cons_self _ _
        · exact List.mem_cons_of_mem _ h
      · intro s hs
        rw [hscore]
        rw [List.map_cons, List.mem_cons] at hs
        rcases hs with rfl | hs
        · exact hle
        · exact hall _ hs
  · have hE : merge_ayas_from_retrieval
        [mkVerse "2:155" (9/10) "B" "ta", mkVerse "2:156" (7/10) "B" "tb"]
        = [{ verse_id := "2:155-156", similarity_score := pyMax [9/10, 7/10],
             surah_name := "B", ayah_text := "ta tb", merged_count := some 2,
             original_verses := some ["2:155", "2:156"] }] := rfl
    rw [hE]
    norm_num [pyMax]

/-- Claim C4, witness: the general part applied to a concrete group. -/
theorem claim_C4_witness :
    ((create_merged_entry [mkVerse "3:1" 5 "N" "x", mkVerse "3:2" 2 "N" "y"]).similarity_score
        ∈ [mkVerse "3:1" 5 "N" "x", mkVerse "3:2" 2 "N" "y"].map Rec.similarity_score
      ∧ ∀ s ∈ [mkVerse "3:1" 5 "N" "x", mkVerse "3:2" 2 "N" "y"].map Rec.similarity_score,
          s ≤ (create_merged_entry [mkVerse "3:1" 5 "N" "x", mkVerse "3:2" 2 "N" "y"]).similarity_score)
    ∧ (create_merged_entry [mkVerse "3:1" 5 "N" "x", mkVerse "3:2" 2 "N" "y"]).ayah_text
        = String.intercalate " " ([mkVerse "3:1" 5 "N" "x", mkVerse "3:2" 2 "N" "y"].map Rec.ayah_text) :=
  claim_C4.1 [mkVerse "3:1" 5 "N" "x", mkVerse "3:2" 2 "N" "y"] (by decide)

/-- Claim C5, counterexample to "keeps its original order position": the
unparsable record at input position 1 sorts with key `(0, 0)` and comes
out at position 0, ahead of the parsable verse. -/
theorem claim_C5_counterexample :
    (merge_ayas_from_retrieval
        [mkVerse "1:1" 1 "n" "t", mkVerse "xx" 2 "m" "u"]).map Rec.verse_id
      = ["xx", "1:1"] := by decide

/-- Claim C6, counterexample to "every entry carries `merged_count ≥ 1`":
a singleton group is returned as the input record itself, with no
`merged_count` (and no `original_verses`) key at all. -/
theorem claim_C6_counterexample :
    (merge_ayas_from_retrieval [mkVerse "1:1" 1 "n" "t"]).map Rec.merged_count
      = [none] := by decide

/-- Claim C8: the verifier-reply adapter answers `true` exactly when the
reply, stripped of surrounding whitespace, equals `"true"`
case-insensitively (lower-casing both sides); anything else gives
`false`. -/
theorem claim_C8 (llm : String → String → String) (q c : String) :
    verify_text_match llm q c = true ↔ pyLower (pyStrip (llm q c)) = pyLower "true" := by
  unfold verify_text_match parse_llm_reply
  rw [show pyLower "true" = "true" from by decide]
  exact beq_iff_eq

/-- Claim C8, witness: a padded mixed-case `True` is accepted, a malformed
reply is rejected. -/
theorem claim_C8_witness :
    verify_text_match (fun _ _ => " True ") "q" "c" = true
      ∧ verify_text_match (fun _ _ => "yes.") "q" "c" = false :=
  ⟨(claim_C8 (fun _ _ => " True ") "q" "c").mpr (by decide), by decide⟩

/-- Claim C9: an unrecognized `span_type` (when the query is not served
from the checkpoint cache) makes `process_single_query` raise, and the
driver loop drops exactly that query: every earlier and later query is
still processed and emitted. -/
theorem claim_C9 (existing : String → Option Res) (verify : String → String → Bool)
    (pre post : List QueryItem) (item : QueryItem)
    (h1 : item.span_type ≠ "WrongAyah") (h2 : item.span_type ≠ "CorrectAyah")
    (h3 : item.span_type ≠ "WrongHadith") (h4 : item.span_type ≠ "CorrectHadith")
    (hnc : existing item.sequence_id = none
      ∨ item.top_20_match_details.length ≠ (effective_match_list item).length) :
    (∃ msg, process_single_query existing verify item = Except.error msg)
    ∧ runAll existing verify (pre ++ item :: post)
        = runAll existing verify pre ++ runAll existing verify post := by
  have hkey : get_text_key item.span_type
      = Except.error ("Unknown span_type: " ++ item.span_type) := by
    unfold get_text_key
    rw [if_neg, if_neg]
    · rintro (h | h) <;> [exact h3 h; exact h4 h]
    · rintro (h | h) <;> [exact h1 h; exact h2 h]
  have hfresh : process_fresh existing verify item (effective_match_list item)
      = Except.error ("Unknown span_type: " ++ item.span_type) := by
    unfold process_fresh
    rw [hkey]
  have herr : process_single_query existing verify item
      = Except.error ("Unknown span_type: " ++ item.span_type) := by
    unfold process_single_query
    rcases hnc with h | h
    · rw [h]
      exact hfresh
    · cases hx : existing item.sequence_id with
      | none => exact hfresh
      | some stored =>
        simp only []
        rw [if_neg h]
        exact hfresh
  refine ⟨⟨_, herr⟩, ?_⟩
  unfold runAll
  rw [List.filterMap_append, List.filterMap_cons]
  rw [herr]
  rfl

/-- Claim C9, witness: a run over three queries where the middle one has
span type `"Nonsense"` raises on that query only; the other two are still
processed. -/
theorem claim_C9_witness :
    (∃ msg, process_single_query (fun _ => none) (fun _ _ => true)
        { sequence_id := "s2", question_id := "2", query_text := "t2",
          span_type := "Nonsense",
          top_20_match_details := [{ ayah_text := "x" }] }
      = Except.error msg)
    ∧ runAll (fun _ => none) (fun _ _ => true)
        ([{ sequence_id := "s1", question_id := "1", query_text := "t1",
            span_type := "CorrectHadith",
            top_20_match_details := [{ hadithTxt := some "h1" }] }]
          ++ { sequence_id := "s2", question_id := "2", query_text := "t2",
               span_type := "Nonsense",
               top_20_match_details := [{ ayah_text := "x" }] }
            :: [{ sequence_id := "s3", question_id := "3", query_text := "t3",
                  span_type := "CorrectHadith",
                  top_20_match_details := [{ hadithTxt := some "h3" }] }])
      = runAll (fun _ => none) (fun _ _ => true)
          [{ sequence_id := "s1", question_id := "1", query_text := "t1",
             span_type := "CorrectHadith",
             top_20_match_details := [{ hadithTxt := some "h1" }] }]
        ++ runAll (fun _ => none) (fun _ _ => true)
          [{ sequence_id := "s3", question_id := "3", query_text := "t3",
             span_type := "CorrectHadith",
             top_20_match_details := [{ hadithTxt := some "h3" }] }] :=
  claim_C9 _ _ _ _ _ (by decide) (by decide) (by decide) (by decide) (Or.inl rfl)

end IslamicEval

namespace IslamicEval

/-! ### Structure of the grouping loop -/

/-- For non-empty input the merge is: parse, sort, group, materialise. -/
lemma merge_eq (l : List Rec) (h : l ≠ []) :
    merge_ayas_from_retrieval l
      = (groupConsecutive ((l.map parseVerse).mergeSort sortLE)).map
          create_merged_entry := by
  cases l with
  | nil => exact absurd rfl h
  | cons v rest => rfl

/-- The groups emitted by the loop concatenate back to its input (with the
current group in front). -/
lemma groupGo_join (rest : List Rec) : ∀ (lastRec : Rec) (prevRev : List Rec),
    (groupGo lastRec prevRev rest).flatten = (lastRec :: prevRev).reverse ++ rest := by
  induction rest with
  | nil => intro lastRec prevRev; simp [groupGo]
  | cons v t ih =>
    intro lastRec prevRev
    by_cases h : canMerge lastRec v = true
    · rw [groupGo, if_pos h, ih]
      simp
    · rw [groupGo, if_neg h]
      simp only [List.flatten_cons, ih v []]
      simp

/-- Grouping partitions the input: the concatenation of the groups is the
input list. -/
lemma groupConsecutive_join (l : List Rec) : (groupConsecutive l).flatten = l := by
  cases l with
  | nil => rfl
  | cons v rest => simpa using groupGo_join rest v []

/-- No emitted group is empty. -/
lemma groupGo_ne_nil (rest : List Rec) : ∀ (lastRec : Rec) (prevRev : List Rec),
    ∀ g ∈ groupGo lastRec prevRev rest, g ≠ [] := by
  induction rest with
  | nil =>
    intro lastRec prevRev g hg
    rw [groupGo, List.mem_singleton] at hg
    subst hg
    simp
  | cons v t ih =>
    intro lastRec prevRev g hg
    by_cases h : canMerge lastRec v = true
    · rw [groupGo, if_pos h] at hg
      exact ih v (lastRec :: prevRev) g hg
    · rw [groupGo, if_neg h] at hg
      rcases List.mem_cons.mp hg with rfl | hg
      · simp
      · exact ih v [] g hg

/-- Every emitted group is a chain for the `canMerge` test. -/
lemma groupGo_chain (rest : List Rec) : ∀ (lastRec : Rec) (prevRev : List Rec),
    List.Chain' (fun a b => canMerge b a = true) (lastRec :: prevRev) →
    ∀ g ∈ groupGo lastRec prevRev rest,
      List.Chain' (fun a b => canMerge a b = true) g := by
  induction rest with
  | nil =>
    intro lastRec prevRev hinv g hg
    rw [groupGo, List.mem_singleton] at hg
    subst hg
    exact List.chain'_reverse.mpr hinv
  | cons v t ih =>
    intro lastRec prevRev hinv g hg
    by_cases h : canMerge lastRec v = true
    · rw [groupGo, if_pos h] at hg
      exact ih v (lastRec :: prevRev) (List.chain'_cons.mpr ⟨h, hinv⟩) g hg
    · rw [groupGo, if_neg h] at hg
      rcases List.mem_cons.mp hg with rfl | hg
      · exact List.chain'_reverse.mpr hinv
      · exact ih v [] (List.chain'_singleton v) g hg

/-- Members of emitted groups are members of the grouped list. -/
lemma mem_of_mem_groupConsecutive {l g : List Rec} {m : Rec}
    (hg : g ∈ groupConsecutive l) (hm : m ∈ g) : m ∈ l := by
  rw [← groupConsecutive_join l]
  exact List.mem_flatten.mpr ⟨g, hg, hm⟩

/-- Every group produced by `groupConsecutive` is non-empty. -/
lemma ne_nil_of_mem_groupConsecutive {l g : List Rec}
    (hg : g ∈ groupConsecutive l) : g ≠ [] := by
  cases l with
  | nil => simp [groupConsecutive] at hg
  | cons v rest => exact groupGo_ne_nil rest v [] g hg

/-- Every group produced by `groupConsecutive` is a `canMerge` chain. -/
lemma chain_of_mem_groupConsecutive {l g : List Rec}
    (hg : g ∈ groupConsecutive l) :
    List.Chain' (fun a b => canMerge a b = true) g := by
  cases l with
  | nil => simp [groupConsecutive] at hg
  | cons v rest => exact groupGo_chain rest v [] (List.chain'_singleton v) g hg

/-- Parsing a record only touches `surah_num`/`ayah_num`. -/
lemma parseVerse_preserves (r : Rec) :
    (parseVerse r).verse_id = r.verse_id
    ∧ (parseVerse r).merged_count = r.merged_count
    ∧ (parseVerse r).original_verses = r.original_verses := by
  unfold parseVerse
  cases h : parse_verse_id r.verse_id with
  | none => exact ⟨rfl, rfl, rfl⟩
  | some p => obtain ⟨s, a⟩ := p; exact ⟨rfl, rfl, rfl⟩

/-- A member of the sorted, parsed working list comes from parsing an
input record. -/
lemma mem_sorted_parsed {l : List Rec} {m : Rec}
    (hm : m ∈ (l.map parseVerse).mergeSort sortLE) :
    ∃ r ∈ l, m = parseVerse r := by
  have h1 : m ∈ l.map parseVerse :=
    ((List.mergeSort_perm (l.map parseVerse) sortLE).mem_iff).mp hm
  obtain ⟨r, hr, he⟩ := List.mem_map.mp h1
  exact ⟨r, hr, he.symm⟩

/-- Claim C10: the merge partitions its input — summing each output
entry's group size (`merged_count` where present, 1 otherwise) over the
output recovers the input length, for inputs that do not already carry a
`merged_count` key. -/
theorem claim_C10 (l : List Rec) (hclean : ∀ r ∈ l, r.merged_count = none) :
    ((merge_ayas_from_retrieval l).map (fun e => e.merged_count.getD 1)).sum
      = l.length := by
  cases l with
  | nil => rfl
  | cons v rest =>
    rw [merge_eq (v :: rest) (List.cons_ne_nil v rest)]
    have hMclean : ∀ m ∈ ((v :: rest).map parseVerse).mergeSort sortLE,
        m.merged_count = none := by
      intro m hm
      obtain ⟨r, hr, rfl⟩ := mem_sorted_parsed hm
      rw [(parseVerse_preserves r).2.1]
      exact hclean r hr
    rw [List.map_map]
    have hcongr :
        (groupConsecutive ((v :: rest).map parseVerse |>.mergeSort sortLE)).map
            ((fun e => e.merged_count.getD 1) ∘ create_merged_entry)
          = (groupConsecutive ((v :: rest).map parseVerse |>.mergeSort sortLE)).map
              List.length := by
      apply List.map_congr_left
      intro g hg
      have hne := ne_nil_of_mem_groupConsecutive hg
      match g, hne with
      | [m], _ =>
        have hm : m.merged_count = none :=
          hMclean m (mem_of_mem_groupConsecutive hg (List.mem_singleton_self m))
        show ({ m with surah_num := none, ayah_num := none } : Rec).merged_count.getD 1 = 1
        rw [show ({ m with surah_num := none, ayah_num := none } : Rec).merged_count
            = m.merged_count from rfl, hm]
        rfl
      | first :: next :: t, _ => rfl
    rw [hcongr, ← List.length_flatten, groupConsecutive_join,
        (List.mergeSort_perm _ _).length_eq, List.length_map]

/-- Claim C10, witness: a concrete mixed input of three records merging
into two groups sums back to three. -/
theorem claim_C10_witness :
    ((merge_ayas_from_retrieval
        [mkVerse "2:6" 1 "B" "x", mkVerse "2:5" 2 "B" "y", mkVerse "9:1" 3 "T" "z"]).map
      (fun e => e.merged_count.getD 1)).sum = 3 :=
  claim_C10 [mkVerse "2:6" 1 "B" "x", mkVerse "2:5" 2 "B" "y", mkVerse "9:1" 3 "T" "z"]
    (by decide)

end IslamicEval

namespace IslamicEval

/-! ### Chains of consecutive verses -/

/-- Passing the `canMerge` test pins the ayah of the appended record. -/
lemma canMerge_ayah {x y : Rec} (h : canMerge x y = true) :
    y.ayah_num = some (x.ayah_num.getD 0 + 1) := by
  unfold canMerge at h
  rw [Bool.and_eq_true] at h
  exact beq_iff_eq.mp h.2

/-- Passing the `canMerge` test forces equal (possibly absent) surahs. -/
lemma canMerge_surah {x y : Rec} (h : canMerge x y = true) :
    y.surah_num = x.surah_num := by
  unfold canMerge at h
  rw [Bool.and_eq_true] at h
  exact beq_iff_eq.mp h.1

/-- Along a `canMerge` chain the ayah numbers strictly increase from the
first member to the last. -/
lemma chain_ayah_lt : ∀ (t : List Rec) (next first : Rec),
    List.Chain' (fun a b => canMerge a b = true) (first :: next :: t) →
    first.ayah_num.getD 0
      < ((next :: t).getLast (List.cons_ne_nil next t)).ayah_num.getD 0
  | [] => by
      intro next first hchain
      have h := canMerge_ayah (List.chain'_cons.mp hchain).1
      have hl : ([next] : List Rec).getLast (List.cons_ne_nil next []) = next := rfl
      rw [hl, h, Option.getD_some]
      omega
  | z :: t2 => by
      intro next first hchain
      have h1 : first.ayah_num.getD 0 < next.ayah_num.getD 0 := by
        rw [canMerge_ayah (List.chain'_cons.mp hchain).1, Option.getD_some]
        omega
      have h2 := chain_ayah_lt t2 z next (List.chain'_cons.mp hchain).2
      rw [List.getLast_cons (List.cons_ne_nil z t2)]
      exact lt_trans h1 h2

/-- Collapsing the popped helper fields on a record that never had them. -/
lemma pop_clean (m : Rec) (h1 : m.surah_num = none) (h2 : m.ayah_num = none) :
    ({ m with surah_num := none, ayah_num := none } : Rec) = m := by
  cases m
  simp_all

/-- Parsing, then popping the helper fields, returns a clean record. -/
lemma pop_parseVerse (r : Rec) (h1 : r.surah_num = none) (h2 : r.ayah_num = none) :
    ({ parseVerse r with surah_num := none, ayah_num := none } : Rec) = r := by
  unfold parseVerse
  cases hp : parse_verse_id r.verse_id with
  | none => exact pop_clean r h1 h2
  | some p =>
      obtain ⟨s, a⟩ := p
      cases r
      simp_all

/-- A record that failed to parse is kept unchanged. -/
lemma parseVerse_of_fail {r : Rec} (h : parse_verse_id r.verse_id = none) :
    parseVerse r = r := by
  unfold parseVerse
  rw [h]

/-- A parsed clean record either kept both helper fields absent or set
both of them. -/
lemma wf_of_parse (r : Rec) (h1 : r.surah_num = none) (h2 : r.ayah_num = none) :
    ((parseVerse r).surah_num = none ∧ (parseVerse r).ayah_num = none)
    ∨ ((parseVerse r).surah_num ≠ none ∧ (parseVerse r).ayah_num ≠ none) := by
  unfold parseVerse
  cases hp : parse_verse_id r.verse_id with
  | none => exact Or.inl ⟨h1, h2⟩
  | some p =>
      obtain ⟨s, a⟩ := p
      exact Or.inr ⟨by simp, by simp⟩

/-- A record with both helper fields absent can only sit in a singleton
group: the `canMerge` test never links it with a neighbour, given that
every member either has both fields or neither. -/
lemma unparsable_group_singleton :
    ∀ (g : List Rec), List.Chain' (fun a b => canMerge a b = true) g →
      (∀ m ∈ g, (m.surah_num = none ∧ m.ayah_num = none)
        ∨ (m.surah_num ≠ none ∧ m.ayah_num ≠ none)) →
      ∀ b ∈ g, b.surah_num = none → b.ayah_num = none → g = [b]
  | [] => by
      intro _ _ b hb
      simp at hb
  | [x] => by
      intro _ _ b hb _ _
      rw [List.mem_singleton] at hb
      subst hb
      rfl
  | x :: y :: t => by
      intro hchain hwf b hb hbs hba
      exfalso
      have hxy : canMerge x y = true := (List.chain'_cons.mp hchain).1
      rcases List.mem_cons.mp hb with rfl | hbt
      · have hysur : y.surah_num = none := by rw [canMerge_surah hxy, hbs]
        rcases hwf y (List.mem_cons_of_mem b (List.mem_cons_self y t)) with
          ⟨_, h2⟩ | ⟨h1, _⟩
        · rw [canMerge_ayah hxy] at h2
          exact Option.some_ne_none _ h2
        · exact h1 hysur
      · have heq := unparsable_group_singleton (y :: t)
          (List.chain'_cons.mp hchain).2
          (fun m hm => hwf m (List.mem_cons_of_mem x hm)) b hbt hbs hba
        have hy : y = b := by injection heq
        rw [hy] at hxy
        unfold canMerge at hxy
        rw [Bool.and_eq_true] at hxy
        have hcontra := beq_iff_eq.mp hxy.2
        rw [hba] at hcontra
        exact Option.noConfusion hcontra

/-- Claim C6, amended.  Every merge output entry is either an input record
returned unchanged — in particular with no `merged_count` and no
`original_verses` key — or the materialisation of a multi-member group of
the (sorted, parsed) working list: its `merged_count` is the group size
`k ≥ 2`, its `original_verses` lists exactly the `k` group members'
verse_ids (the ids of the grouped input records), and its `verse_id` is
the range string built from the group's first member's surah and the first
and last members' ayah numbers, which always differ (`A1 < A2`). -/
theorem claim_C6 (l : List Rec)
    (hclean : ∀ r ∈ l, r.merged_count = none ∧ r.original_verses = none
      ∧ r.surah_num = none ∧ r.ayah_num = none) :
    ∀ e ∈ merge_ayas_from_retrieval l,
      (e.merged_count = none ∧ e.original_verses = none ∧ e ∈ l)
      ∨ (∃ first next gt,
          (first :: next :: gt)
              ∈ groupConsecutive ((l.map parseVerse).mergeSort sortLE)
          ∧ e = create_merged_entry (first :: next :: gt)
          ∧ e.merged_count = some (first :: next :: gt).length
          ∧ 2 ≤ (first :: next :: gt).length
          ∧ e.original_verses = some ((first :: next :: gt).map Rec.verse_id)
          ∧ (∀ m ∈ first :: next :: gt, ∃ r ∈ l, m = parseVerse r
              ∧ m.verse_id = r.verse_id)
          ∧ first.ayah_num.getD 0
              < ((next :: gt).getLast (List.cons_ne_nil next gt)).ayah_num.getD 0
          ∧ e.verse_id = mkRangeId (first.surah_num.getD 0) (first.ayah_num.getD 0)
              (((next :: gt).getLast (List.cons_ne_nil next gt)).ayah_num.getD 0)) := by
  intro e he
  cases l with
  | nil => simp [merge_ayas_from_retrieval] at he
  | cons v rest =>
    rw [merge_eq (v :: rest) (List.cons_ne_nil v rest)] at he
    obtain ⟨g, hg, rfl⟩ := List.mem_map.mp he
    have hchain := chain_of_mem_groupConsecutive hg
    cases g with
    | nil => exact absurd rfl (ne_nil_of_mem_groupConsecutive hg)
    | cons a t =>
      cases t with
      | nil =>
        obtain ⟨r, hr, rfl⟩ := mem_sorted_parsed
          (mem_of_mem_groupConsecutive hg (List.mem_singleton_self a))
        obtain ⟨hmc, hov, hsn, han⟩ := hclean r hr
        left
        have hpop : create_merged_entry [parseVerse r] = r := pop_parseVerse r hsn han
        rw [hpop]
        exact ⟨hmc, hov, hr⟩
      | cons b t2 =>
        right
        have hlt := chain_ayah_lt t2 b a hchain
        refine ⟨a, b, t2, hg, rfl, rfl, by simp, rfl, ?_, hlt, ?_⟩
        · intro m hm
          obtain ⟨r, hr, rfl⟩ := mem_sorted_parsed
            (mem_of_mem_groupConsecutive hg hm)
          exact ⟨r, hr, rfl, (parseVerse_preserves r).1⟩
        · have hid : (create_merged_entry (a :: b :: t2)).verse_id
              = if (a.ayah_num.getD 0
                  == ((b :: t2).getLast (List.cons_ne_nil b t2)).ayah_num.getD 0) then
                  a.verse_id
                else
                  mkRangeId (a.surah_num.getD 0) (a.ayah_num.getD 0)
                    (((b :: t2).getLast (List.cons_ne_nil b t2)).ayah_num.getD 0) := rfl
          rw [hid, if_neg]
          simp only [beq_iff_eq]
          omega

/-- Claim C6, witness: the amended statement applied to the concrete
merged entry produced for the verses `5:1` and `5:2`. -/
theorem claim_C6_witness :
    (({ verse_id := "5:1-2", similarity_score := 2, surah_name := "N",
        ayah_text := "x y", merged_count := some 2,
        original_verses := some ["5:1", "5:2"] } : Rec).merged_count = none
      ∧ ({ verse_id := "5:1-2", similarity_score := 2, surah_name := "N",
           ayah_text := "x y", merged_count := some 2,
           original_verses := some ["5:1", "5:2"] } : Rec).original_verses = none
      ∧ ({ verse_id := "5:1-2", similarity_score := 2, surah_name := "N",
           ayah_text := "x y", merged_count := some 2,
           original_verses := some ["5:1", "5:2"] } : Rec)
          ∈ [mkVerse "5:1" 1 "N" "x", mkVerse "5:2" 2 "N" "y", mkVerse "6:9" 3 "M" "z"])
    ∨ (∃ first next gt,
        (first :: next :: gt)
            ∈ groupConsecutive
              (([mkVerse "5:1" 1 "N" "x", mkVerse "5:2" 2 "N" "y",
                 mkVerse "6:9" 3 "M" "z"].map parseVerse).mergeSort sortLE)
        ∧ ({ verse_id := "5:1-2", similarity_score := 2, surah_name := "N",
             ayah_text := "x y", merged_count := some 2,
             original_verses := some ["5:1", "5:2"] } : Rec)
            = create_merged_entry (first :: next :: gt)
        ∧ ({ verse_id := "5:1-2", similarity_score := 2, surah_name := "N",
             ayah_text := "x y", merged_count := some 2,
             original_verses := some ["5:1", "5:2"] } : Rec).merged_count
            = some (first :: next :: gt).length
        ∧ 2 ≤ (first :: next :: gt).length
        ∧ ({ verse_id := "5:1-2", similarity_score := 2, surah_name := "N",
             ayah_text := "x y", merged_count := some 2,
             original_verses := some ["5:1", "5:2"] } : Rec).original_verses
            = some ((first :: next :: gt).map Rec.verse_id)
        ∧ (∀ m ∈ first :: next :: gt,
            ∃ r ∈ [mkVerse "5:1" 1 "N" "x", mkVerse "5:2" 2 "N" "y",
                   mkVerse "6:9" 3 "M" "z"],
              m = parseVerse r ∧ m.verse_id = r.verse_id)
        ∧ first.ayah_num.getD 0
            < ((next :: gt).getLast (List.cons_ne_nil next gt)).ayah_num.getD 0
        ∧ ({ verse_id := "5:1-2", similarity_score := 2, surah_name := "N",
             ayah_text := "x y", merged_count := some 2,
             original_verses := some ["5:1", "5:2"] } : Rec).verse_id
            = mkRangeId (first.surah_num.getD 0) (first.ayah_num.getD 0)
              (((next :: gt).getLast (List.cons_ne_nil next gt)).ayah_num.getD 0)) :=
  claim_C6 [mkVerse "5:1" 1 "N" "x", mkVerse "5:2" 2 "N" "y", mkVerse "6:9" 3 "M" "z"]
    (by decide) _ (by decide)

/-- Claim C5, amended.  On clean inputs an unparsable record never makes
the merge fail: it is emitted unchanged as a degenerate single-element
entry and is never merged into any multi-verse group (its id appears in no
`original_verses` list).  It does **not** keep its original position: it
is sorted with key `(0, 0)`, as the concrete second part shows, where the
unparsable record moves from input position 1 to output position 0. -/
theorem claim_C5 :
    (∀ (l : List Rec) (b : Rec),
      (∀ r ∈ l, r.merged_count = none ∧ r.original_verses = none
        ∧ r.surah_num = none ∧ r.ayah_num = none) →
      b ∈ l → parse_verse_id b.verse_id = none →
      b ∈ merge_ayas_from_retrieval l
      ∧ ∀ e ∈ merge_ayas_from_retrieval l, ∀ vs, e.original_verses = some vs →
          b.verse_id ∉ vs)
    ∧ (merge_ayas_from_retrieval
        [mkVerse "3:7" 1 "n" "t", mkVerse "bad" 2 "m" "u"]).map Rec.verse_id
      = ["bad", "3:7"] := by
  constructor
  · intro l b hclean hb hparse
    have hne : l ≠ [] := List.ne_nil_of_mem hb
    have hbp : parseVerse b = b := parseVerse_of_fail hparse
    have hbM : b ∈ (l.map parseVerse).mergeSort sortLE :=
      (List.mergeSort_perm _ _).mem_iff.mpr (List.mem_map.mpr ⟨b, hb, hbp⟩)
    obtain ⟨g, hg, hbg⟩ := List.mem_flatten.mp
      (by rw [groupConsecutive_join]; exact hbM)
    have hwf : ∀ m ∈ (l.map parseVerse).mergeSort sortLE,
        (m.surah_num = none ∧ m.ayah_num = none)
        ∨ (m.surah_num ≠ none ∧ m.ayah_num ≠ none) := by
      intro m hm
      obtain ⟨r, hr, rfl⟩ := mem_sorted_parsed hm
      exact wf_of_parse r (hclean r hr).2.2.1 (hclean r hr).2.2.2
    have hmb1 : b.surah_num = none := (hclean b hb).2.2.1
    have hmb2 : b.ayah_num = none := (hclean b hb).2.2.2
    have hsingle : g = [b] := unparsable_group_singleton g
      (chain_of_mem_groupConsecutive hg)
      (fun m hm => hwf m (mem_of_mem_groupConsecutive hg hm)) b hbg hmb1 hmb2
    constructor
    · rw [merge_eq l hne]
      refine List.mem_map.mpr ⟨g, hg, ?_⟩
      rw [hsingle]
      show ({ b with surah_num := none, ayah_num := none } : Rec) = b
      exact pop_clean b hmb1 hmb2
    · intro e he vs hvs hmem
      rw [merge_eq l hne] at he
      obtain ⟨g', hg', rfl⟩ := List.mem_map.mp he
      cases g' with
      | nil => exact absurd rfl (ne_nil_of_mem_groupConsecutive hg')
      | cons a t =>
        cases t with
        | nil =>
          obtain ⟨r, hr, rfl⟩ := mem_sorted_parsed
            (mem_of_mem_groupConsecutive hg' (List.mem_singleton_self a))
          have hnone : (create_merged_entry [parseVerse r]).original_verses = none := by
            show (parseVerse r).original_verses = none
            rw [(parseVerse_preserves r).2.2]
            exact (hclean r hr).2.1
          rw [hvs] at hnone
          exact Option.noConfusion hnone
        | cons c t2 =>
          have hform : (create_merged_entry (a :: c :: t2)).original_verses
              = some ((a :: c :: t2).map Rec.verse_id) := rfl
          rw [hform] at hvs
          have hvs' : vs = (a :: c :: t2).map Rec.verse_id :=
            (Option.some_inj.mp hvs).symm
          rw [hvs'] at hmem
          obtain ⟨m, hmg, hmid⟩ := List.mem_map.mp hmem
          rcases hwf m (mem_of_mem_groupConsecutive hg' hmg) with ⟨h1, h2⟩ | ⟨h1, h2⟩
          · have hone := unparsable_group_singleton (a :: c :: t2)
              (chain_of_mem_groupConsecutive hg')
              (fun m' hm' => hwf m' (mem_of_mem_groupConsecutive hg' hm')) m hmg h1 h2
            have hlen := congrArg List.length hone
            simp at hlen
          · obtain ⟨r, hr, rfl⟩ := mem_sorted_parsed
              (mem_of_mem_groupConsecutive hg' hmg)
            cases hp : parse_verse_id r.verse_id with
            | none =>
              rw [parseVerse_of_fail hp] at h1
              exact h1 (hclean r hr).2.2.1
            | some p =>
              have hid : (parseVerse r).verse_id = r.verse_id :=
                (parseVerse_preserves r).1
              rw [hid] at hmid
              rw [hmid, hparse] at hp
              exact Option.noConfusion hp
  · decide

/-- Claim C5, witness: the general part applied to a concrete clean input
containing the unparsable record `zz`. -/
theorem claim_C5_witness :
    mkVerse "zz" 2 "m" "u"
        ∈ merge_ayas_from_retrieval [mkVerse "4:4" 1 "n" "t", mkVerse "zz" 2 "m" "u"]
    ∧ ∀ e ∈ merge_ayas_from_retrieval [mkVerse "4:4" 1 "n" "t", mkVerse "zz" 2 "m" "u"],
        ∀ vs, e.original_verses = some vs → (mkVerse "zz" 2 "m" "u").verse_id ∉ vs :=
  claim_C5.1 [mkVerse "4:4" 1 "n" "t", mkVerse "zz" 2 "m" "u"] (mkVerse "zz" 2 "m" "u")
    (by decide) (by decide) (by decide)

end IslamicEval

namespace IslamicEval

/-! ### Uniqueness of the sorted order -/

/-- Strict lexicographic order on sort keys. -/
def keyLT (p q : Int × Int) : Prop :=
  p.1 < q.1 ∨ (p.1 = q.1 ∧ p.2 < q.2)

lemma keyLT_asymm {p q : Int × Int} (h1 : keyLT p q) (h2 : keyLT q p) : False := by
  unfold keyLT at h1 h2
  omega

lemma keyLT_ne {p q : Int × Int} (h : keyLT p q) : p ≠ q := by
  rintro rfl
  unfold keyLT at h
  omega

lemma keyLE_lt_of_ne {a b : Rec} (hle : sortLE a b = true)
    (hne : sortKey a ≠ sortKey b) : keyLT (sortKey a) (sortKey b) := by
  unfold sortLE keyLE at hle
  rw [decide_eq_true_eq] at hle
  unfold keyLT
  rcases hle with h | ⟨h1, h2⟩
  · exact Or.inl h
  · refine Or.inr ⟨h1, lt_of_le_of_ne h2 ?_⟩
    intro he
    exact hne (Prod.ext_iff.mpr ⟨h1, he⟩)

lemma sortLE_trans (a b c : Rec) :
    sortLE a b = true → sortLE b c = true → sortLE a c = true := by
  unfold sortLE keyLE
  intro h1 h2
  rw [decide_eq_true_eq] at h1 h2 ⊢
  omega

lemma sortLE_total (a b : Rec) : (sortLE a b || sortLE b a) = true := by
  unfold sortLE keyLE
  rw [Bool.or_eq_true, decide_eq_true_eq, decide_eq_true_eq]
  omega

/-- A stable sort of any permutation of a strictly key-sorted list `P`
gives back exactly `P`: with pairwise distinct keys the sorted order is
unique.  This justifies reasoning about `parsed_verses.sort(...)` for an
arbitrary input order. -/
lemma mergeSort_eq_of_sorted_of_perm (l P : List Rec) (hp : l.Perm P)
    (hP : P.Pairwise (fun a b => keyLT (sortKey a) (sortKey b))) :
    l.mergeSort sortLE = P := by
  have h1 : (l.mergeSort sortLE).Perm P := (List.mergeSort_perm l sortLE).trans hp
  have h2 : (l.mergeSort sortLE).Pairwise (fun a b => sortLE a b = true) :=
    List.sorted_mergeSort (fun a b c => sortLE_trans a b c)
      (fun a b => sortLE_total a b) l
  have hPne : P.Pairwise (fun a b => sortKey a ≠ sortKey b) :=
    hP.imp (fun h => keyLT_ne h)
  have hMne : (l.mergeSort sortLE).Pairwise (fun a b => sortKey a ≠ sortKey b) :=
    (List.Perm.pairwise_iff (fun h => Ne.symm h) h1).mpr hPne
  have hMlt : (l.mergeSort sortLE).Pairwise
      (fun a b => keyLT (sortKey a) (sortKey b)) :=
    (h2.and hMne).imp (fun h => keyLE_lt_of_ne h.1 h.2)
  haveI : IsAntisymm Rec (fun a b => keyLT (sortKey a) (sortKey b)) :=
    ⟨fun a b ha hb => (keyLT_asymm ha hb).elim⟩
  exact List.eq_of_perm_of_sorted h1 hMlt hP

/-- Claim C3: for any permutation of the four verse records `1:1`, `1:2`,
`1:4`, `2:1` (any scores, names, texts), the merge returns exactly the
three entries `"1:1-2"` (a merged pair), `"1:4"` and `"2:1"` (singletons),
in this sorted order. -/
theorem claim_C3 (l : List Rec) (s1 s2 s4 s5 : ℚ)
    (n1 t1 n2 t2 n4 t4 n5 t5 : String)
    (hperm : l.Perm [mkVerse "1:1" s1 n1 t1, mkVerse "1:2" s2 n2 t2,
      mkVerse "1:4" s4 n4 t4, mkVerse "2:1" s5 n5 t5]) :
    (merge_ayas_from_retrieval l).map Rec.verse_id = ["1:1-2", "1:4", "2:1"]
    ∧ (merge_ayas_from_retrieval l).map Rec.merged_count = [some 2, none, none] := by
  have hlen : l.length = 4 := by simpa using hperm.length_eq
  have hne : l ≠ [] := by intro h; rw [h] at hlen; simp at hlen
  rw [merge_eq l hne]
  have hsorted : (l.map parseVerse).mergeSort sortLE
      = [mkVerse "1:1" s1 n1 t1, mkVerse "1:2" s2 n2 t2,
         mkVerse "1:4" s4 n4 t4, mkVerse "2:1" s5 n5 t5].map parseVerse := by
    apply mergeSort_eq_of_sorted_of_perm _ _ (hperm.map parseVerse)
    have k12 : keyLT (1, 1) (1, 2) := Or.inr ⟨rfl, by norm_num⟩
    have k14 : keyLT (1, 1) (1, 4) := Or.inr ⟨rfl, by norm_num⟩
    have k121 : keyLT (1, 1) (2, 1) := Or.inl (by norm_num)
    have k24 : keyLT (1, 2) (1, 4) := Or.inr ⟨rfl, by norm_num⟩
    have k221 : keyLT (1, 2) (2, 1) := Or.inl (by norm_num)
    have k421 : keyLT (1, 4) (2, 1) := Or.inl (by norm_num)
    simp only [List.map_cons, List.map_nil]
    refine List.Pairwise.cons ?_ (List.Pairwise.cons ?_
      (List.Pairwise.cons ?_ (List.pairwise_singleton _ _)))
    · intro a' ha'
      rcases List.mem_cons.mp ha' with rfl | ha'
      · exact k12
      rcases List.mem_cons.mp ha' with rfl | ha'
      · exact k14
      rcases List.mem_cons.mp ha' with rfl | ha'
      · exact k121
      simp at ha'
    · intro a' ha'
      rcases List.mem_cons.mp ha' with rfl | ha'
      · exact k24
      rcases List.mem_cons.mp ha' with rfl | ha'
      · exact k221
      simp at ha'
    · intro a' ha'
      rcases List.mem_cons.mp ha' with rfl | ha'
      · exact k421
      simp at ha'
  rw [hsorted]
  exact ⟨rfl, rfl⟩

/-- Claim C3, witness: the identity permutation with concrete scores. -/
theorem claim_C3_witness :
    (merge_ayas_from_retrieval [mkVerse "1:1" 1 "n" "a", mkVerse "1:2" 2 "n" "b",
        mkVerse "1:4" 3 "n" "c", mkVerse "2:1" 4 "m" "d"]).map Rec.verse_id
      = ["1:1-2", "1:4", "2:1"]
    ∧ (merge_ayas_from_retrieval [mkVerse "1:1" 1 "n" "a", mkVerse "1:2" 2 "n" "b",
        mkVerse "1:4" 3 "n" "c", mkVerse "2:1" 4 "m" "d"]).map Rec.merged_count
      = [some 2, none, none] :=
  claim_C3 _ 1 2 3 4 "n" "a" "n" "b" "n" "c" "m" "d" (List.Perm.refl _)

end IslamicEval

namespace IslamicEval

/-- A duplicate-free list of naturals below `n` has at most `n` members. -/
lemma nodup_lt_length_le (xs : List ℕ) (n : ℕ) (hnd : xs.Nodup)
    (hlt : ∀ x ∈ xs, x < n) : xs.length ≤ n := by
  classical
  have hsub : xs.toFinset ⊆ Finset.range n := by
    intro x hx
    exact Finset.mem_range.mpr (hlt x (List.mem_toFinset.mp hx))
  calc xs.length = xs.toFinset.card := (List.toFinset_card_of_nodup hnd).symm
    _ ≤ (Finset.range n).card := Finset.card_le_card hsub
    _ = n := Finset.card_range n

/-- Claim C7: every emitted Quran-search row is scored
`coverage * 1000 − proximity`, its coverage is the distinct-matched-index
count over the query-word count and lies in `[0, 1]`, its proximity is the
proximity score of its verse's match positions; the output is sorted by
score descending and truncated to `max_results`; and the proximity of at
most one position is `0`. -/
theorem claim_C7 (getText : Nat → Nat → String) (getNameAr getNameEn : Nat → String)
    (vm : List ((Nat × Nat) × List WordMatch)) (qw : List String) (k : Nat)
    (hidx : ∀ p ∈ vm, ∀ w ∈ p.2, w.word_index < qw.length)
    (hq : qw ≠ []) :
    (∀ r ∈ rank_and_format_results getText getNameAr getNameEn vm qw k,
      r.score = r.coverage_score * 1000 - r.proximity_score
      ∧ 0 ≤ r.coverage_score ∧ r.coverage_score ≤ 1
      ∧ r.total_query_words = qw.length
      ∧ ∃ p ∈ vm, r.surah_number = p.1.1 ∧ r.verse_number = p.1.2
          ∧ r.proximity_score
              = calculate_proximity_score (p.2.map WordMatch.position)
          ∧ r.coverage_score
              = ((p.2.map WordMatch.word_index).dedup.length : ℚ) / (qw.length : ℚ))
    ∧ (rank_and_format_results getText getNameAr getNameEn vm qw k).Pairwise
        (fun a b => b.score ≤ a.score)
    ∧ (rank_and_format_results getText getNameAr getNameEn vm qw k).length ≤ k
    ∧ (∀ ps : List Int, ps.length ≤ 1 → calculate_proximity_score ps = 0) := by
  have hprox0 : ∀ ps : List Int, ps.length ≤ 1 → calculate_proximity_score ps = 0 := by
    intro ps h
    unfold calculate_proximity_score
    rw [if_pos h]
  cases vm with
  | nil => exact ⟨by intro r hr; simp [rank_and_format_results] at hr,
      by simp [rank_and_format_results], by simp [rank_and_format_results], hprox0⟩
  | cons p0 vmt =>
    have hq' : 0 < qw.length := List.length_pos.mpr hq
    set f : (Nat × Nat) × List WordMatch → Option SearchResult := fun vmp =>
      if getText vmp.1.1 vmp.1.2 = "" then none
      else some
        { score := ((((vmp.2.map WordMatch.word_index).dedup.length : ℚ)
              / (qw.length : ℚ)) * 1000
              - calculate_proximity_score (vmp.2.map WordMatch.position)),
          surah_number := vmp.1.1,
          verse_number := vmp.1.2,
          verse_text := getText vmp.1.1 vmp.1.2,
          surah_name_ar := getNameAr vmp.1.1,
          surah_name_en := getNameEn vmp.1.1,
          coverage_score := (((vmp.2.map WordMatch.word_index).dedup.length : ℚ)
              / (qw.length : ℚ)),
          proximity_score := calculate_proximity_score (vmp.2.map WordMatch.position),
          matched_words_count := vmp.2.length,
          total_query_words := qw.length } with hf
    have hout : rank_and_format_results getText getNameAr getNameEn (p0 :: vmt) qw k
        = (((p0 :: vmt).filterMap f).mergeSort
            (fun a b => decide (b.score ≤ a.score))).take k := rfl
    refine ⟨?_, ?_, ?_, hprox0⟩
    · intro r hr
      rw [hout] at hr
      have hr1 := List.mem_of_mem_take hr
      have hr2 := (List.mergeSort_perm _ _).mem_iff.mp hr1
      obtain ⟨p, hp, hsome⟩ := List.mem_filterMap.mp hr2
      rw [hf] at hsome
      dsimp only at hsome
      by_cases htext : getText p.1.1 p.1.2 = ""
      · rw [if_pos htext] at hsome
        exact Option.noConfusion hsome
      · rw [if_neg htext] at hsome
        obtain rfl := Option.some_inj.mp hsome
        have hnd := List.nodup_dedup (p.2.map WordMatch.word_index)
        have hbound : (p.2.map WordMatch.word_index).dedup.length ≤ qw.length := by
          apply nodup_lt_length_le _ _ hnd
          intro x hx
          obtain ⟨w, hw, rfl⟩ := List.mem_map.mp (List.mem_dedup.mp hx)
          exact hidx p hp w hw
        refine ⟨rfl, ?_, ?_, rfl, p, hp, rfl, rfl, rfl, rfl⟩
        · positivity
        · rw [div_le_one (by positivity)]
          exact_mod_cast hbound
    · rw [hout]
      apply List.Pairwise.sublist (List.take_sublist k _)
      have hs := @List.sorted_mergeSort SearchResult
        (fun a b : SearchResult => decide (b.score ≤ a.score))
        (fun a b c h1 h2 => by
          rw [decide_eq_true_eq] at h1 h2 ⊢
          exact le_trans h2 h1)
        (fun a b => by
          rw [Bool.or_eq_true, decide_eq_true_eq, decide_eq_true_eq]
          exact le_total b.score a.score)
        ((p0 :: vmt).filterMap f)
      exact hs.imp (fun h => decide_eq_true_eq.mp h)
    · rw [hout]
      exact List.length_take_le k _

/-- Claim C7, witness: one matched verse, a one-word query. -/
theorem claim_C7_witness :
    (∀ r ∈ rank_and_format_results (fun _ _ => "v") (fun _ => "S") (fun _ => "E")
        [((1, 2), [{ sequence := "w", word_index := 0, position := 3 }])] ["w"] 5,
      r.score = r.coverage_score * 1000 - r.proximity_score
      ∧ 0 ≤ r.coverage_score ∧ r.coverage_score ≤ 1
      ∧ r.total_query_words = (["w"] : List String).length
      ∧ ∃ p ∈ [((1, 2), [({ sequence := "w", word_index := 0, position := 3 } : WordMatch)])],
          r.surah_number = p.1.1 ∧ r.verse_number = p.1.2
          ∧ r.proximity_score
              = calculate_proximity_score (p.2.map WordMatch.position)
          ∧ r.coverage_score
              = ((p.2.map WordMatch.word_index).dedup.length : ℚ)
                  / ((["w"] : List String).length : ℚ))
    ∧ (rank_and_format_results (fun _ _ => "v") (fun _ => "S") (fun _ => "E")
        [((1, 2), [{ sequence := "w", word_index := 0, position := 3 }])] ["w"] 5).Pairwise
        (fun a b => b.score ≤ a.score)
    ∧ (rank_and_format_results (fun _ _ => "v") (fun _ => "S") (fun _ => "E")
        [((1, 2), [{ sequence := "w", word_index := 0, position := 3 }])] ["w"] 5).length ≤ 5
    ∧ (∀ ps : List Int, ps.length ≤ 1 → calculate_proximity_score ps = 0) :=
  claim_C7 (fun _ _ => "v") (fun _ => "S") (fun _ => "E")
    [((1, 2), [{ sequence := "w", word_index := 0, position := 3 }])] ["w"] 5
    (by decide) (by decide)

end IslamicEval
